import Mathlib

/-
  Verification of the Common Object Management Service metadata catalog.

  The relational tables (metadata, version_metadata, version, object,
  permission) are embedded as Lean lists of row structures; the Objection.js
  service functions are embedded as state-passing functions.  Database
  statements can fail: each statement consumes one slot of an explicit
  failure schedule (a list of booleans), so transactional rollback behavior
  is expressible.  Uuid-valued columns are embedded as natural numbers.
-/

namespace Coms

/-- A row of the metadata table: a deduplicated (key, value) pair. -/
structure MetadataRow where
  id : Nat
  key : String
  value : String
deriving DecidableEq, Repr

/-- A row of the version_metadata join table. -/
structure VersionMetadataRow where
  versionId : Nat
  metadataId : Nat
  createdBy : Nat
deriving DecidableEq, Repr

/-- An incoming metadata object, eg one element of
`[ \x7b key: 'a', value: '1' \x7d ]` in `associateMetadata`. -/
structure MetadataPair where
  key : String
  value : String
deriving DecidableEq, Repr

/-- The slice of the relational database touched by the metadata service:
the metadata table, the version_metadata join table, and the id sequence
used by inserts into metadata. -/
structure DB where
  metadata : List MetadataRow
  versionMetadata : List VersionMetadataRow
  nextId : Nat
deriving DecidableEq, Repr

/-- The system user (`NIL` uuid in the source), embedded as 0. -/
def SYSTEM_USER : Nat := 0

/-- A database computation: takes the index of the next database statement
and the current database, returns a result (or a database error), the next
statement index and the resulting database.  The failure schedule is
supplied to the primitive statements, so any statement of a run can be made
to fail. -/
def DbM (α : Type) : Type := Nat → DB → Except Unit α × Nat × DB

instance : Monad DbM where
  pure a := fun n db => (Except.ok a, n, db)
  bind x f := fun n db =>
    match x n db with
    | (Except.ok a, n2, db2) => f a n2 db2
    | (Except.error e, n2, db2) => (Except.error e, n2, db2)

/-- One database statement: fails when the failure schedule marks this
statement index, otherwise applies `f` to the database. -/
def dbStep (fs : List Bool) (f : DB → α × DB) : DbM α :=
  fun n db =>
    if fs.getD n false then (Except.error (), n + 1, db)
    else (Except.ok (f db).1, n + 1, (f db).2)

/-- A read-only database statement. -/
def dbSelect (fs : List Bool) (f : DB → α) : DbM α :=
  dbStep fs (fun db => (f db, db))

/-- `getObjectsByKeyValue` from components/utils: the first element of the
list whose key and value both match. -/
def getObjectsByKeyValue (l : List MetadataRow) (k v : String) : Option MetadataRow :=
  l.find? (fun m => m.key == k && m.value == v)

/-- The split performed by the forEach loop of `createMetadata`: pairs
already present in `allMetadata` become rows carrying the existing id (in
incoming order), the rest are collected for insertion (in incoming order). -/
def splitMetadata (allMetadata : List MetadataRow) : List MetadataPair → List MetadataRow × List MetadataPair
  | [] => ([], [])
  | p :: ps =>
    let rest := splitMetadata allMetadata ps
    match getObjectsByKeyValue allMetadata p.key p.value with
    | some m => (MetadataRow.mk m.id p.key p.value :: rest.1, rest.2)
    | none => (rest.1, p :: rest.2)

/-- Rows created by an insert into the metadata table: consecutive fresh ids
starting at the sequence value. -/
def freshRows (nextId : Nat) : List MetadataPair → List MetadataRow
  | [] => []
  | p :: ps => MetadataRow.mk nextId p.key p.value :: freshRows (nextId + 1) ps

/-- The insert statement of `createMetadata`: appends fresh rows for the new
pairs and advances the id sequence. -/
def insertMetadataRows (pairs : List MetadataPair) (db : DB) : List MetadataRow × DB :=
  (freshRows db.nextId pairs,
   { db with metadata := db.metadata ++ freshRows db.nextId pairs,
             nextId := db.nextId + pairs.length })

/-- Join rows inserted for a version from resolved metadata rows. -/
def mkJoinRows (vid uid : Nat) (rows : List MetadataRow) : List VersionMetadataRow :=
  rows.map (fun m => VersionMetadataRow.mk vid m.id uid)

/-- `dissociateMetadata` of `associateMetadata`: current joins whose metadata
is not among the resolved target rows `T`. -/
def dissociateOf (T : List MetadataRow) (C : List VersionMetadataRow) :
    List VersionMetadataRow :=
  C.filter (fun vm => !T.any (fun m => m.id == vm.metadataId))

/-- `newJoins` of `associateMetadata`: when the version had joins, the target
rows not already joined; otherwise all target rows. -/
def newJoinsOf (T : List MetadataRow) (C : List VersionMetadataRow) : List MetadataRow :=
  if C.length ≠ 0 then T.filter (fun m => !C.any (fun vm => vm.metadataId == m.id)) else T

/-- The delete statement of `associateMetadata`: remove join rows of the
version whose metadata id is among the dissociation set `D`. -/
def deleteJoins (vid : Nat) (D : List VersionMetadataRow) (VM : List VersionMetadataRow) :
    List VersionMetadataRow :=
  VM.filter (fun vm =>
    !((D.map (fun d => d.metadataId)).contains vm.metadataId && vm.versionId == vid))

/-- The net effect of `associateMetadata`'s delete-then-insert steps on the
version_metadata table, given the resolved target rows `T`: delete the
current joins of the version whose metadata is not in `T` (only when the
version had joins and some is extraneous), then append joins for the rows of
`T` not already joined. -/
def reconcileJoins (vid uid : Nat) (T : List MetadataRow)
    (VM : List VersionMetadataRow) : List VersionMetadataRow :=
  (if (VM.filter (fun vm => vm.versionId == vid)).length ≠ 0 ∧
      (dissociateOf T (VM.filter (fun vm => vm.versionId == vid))).length ≠ 0 then
    deleteJoins vid (dissociateOf T (VM.filter (fun vm => vm.versionId == vid))) VM
  else VM) ++
  mkJoinRows vid uid (newJoinsOf T (VM.filter (fun vm => vm.versionId == vid)))

/-- Body of `createMetadata` (services/metadata.js): select all metadata,
split incoming pairs into existing and new, insert the new ones, and return
existing rows concatenated with the inserted rows. -/
def createMetadataBody (fs : List Bool) (pairs : List MetadataPair) : DbM (List MetadataRow) :=
  dbSelect fs (fun db => db.metadata) >>= fun allMetadata =>
  if (splitMetadata allMetadata pairs).2.length ≠ 0 then
    dbStep fs (insertMetadataRows (splitMetadata allMetadata pairs).2) >>= fun newRecords =>
    pure ((splitMetadata allMetadata pairs).1 ++ newRecords)
  else
    pure (splitMetadata allMetadata pairs).1

/-- Body of `pruneOrphanedMetadata` (services/metadata.js): select the ids of
metadata rows with no version_metadata row referencing them (the left join
whose join column is null), then delete the rows with those ids, returning
the number of rows deleted. -/
def pruneOrphanedMetadataBody (fs : List Bool) : DbM Nat :=
  dbSelect fs (fun db =>
    (db.metadata.filter (fun m => !db.versionMetadata.any (fun vm => vm.metadataId == m.id))).map
      (fun m => m.id)) >>= fun orphanIds =>
  dbStep fs (fun db =>
    ((db.metadata.filter (fun m => orphanIds.contains m.id)).length,
     { db with metadata := db.metadata.filter (fun m => !orphanIds.contains m.id) }))

/-- Body of `associateMetadata` (services/metadata.js).  Everything is
guarded by `metadata && metadata.length`: resolve incoming pairs to rows
(`createMetadata`), load the current joins for the version, delete the joins
whose metadata is not in the incoming set (and prune orphaned metadata when
any deletion occurred), then insert joins for incoming metadata not already
joined. -/
def associateMetadataBody (fs : List Bool) (versionId : Nat) (metadata : List MetadataPair)
    (currentUserId : Nat) : DbM (List VersionMetadataRow) :=
  if metadata.length ≠ 0 then
    createMetadataBody fs metadata >>= fun dbMetadata =>
    dbSelect fs (fun db => db.versionMetadata.filter (fun vm => vm.versionId == versionId)) >>=
      fun associatedMetadata =>
    (if associatedMetadata.length ≠ 0 then
      if (dissociateOf dbMetadata associatedMetadata).length ≠ 0 then
        dbStep fs (fun db =>
          ((), { db with versionMetadata :=
                   (deleteJoins versionId (dissociateOf dbMetadata associatedMetadata)
                     db.versionMetadata) })) >>= fun _ =>
        pruneOrphanedMetadataBody fs >>= fun _ =>
        pure ()
      else pure ()
    else pure ()) >>= fun _ =>
    (if (newJoinsOf dbMetadata associatedMetadata).length ≠ 0 then
      dbStep fs (fun db =>
        (mkJoinRows versionId currentUserId (newJoinsOf dbMetadata associatedMetadata),
         { db with versionMetadata := db.versionMetadata ++
             mkJoinRows versionId currentUserId (newJoinsOf dbMetadata associatedMetadata) }))
    else pure [])
  else pure []

/-- Transaction events performed by a service call itself. -/
inductive TxEvent
  | start
  | commit
  | rollback
deriving DecidableEq, Repr

/-- The try/catch transaction wrapper shared by the metadata service
functions.  `etrx = true` means the caller supplied a transaction: the body
runs inside it and the wrapper neither commits nor rolls back (the returned
database is the pending state of the caller's still-open transaction, even
on error).  `etrx = false` means the call opens its own transaction: on
success it commits the body's state, on error it rolls back, leaving the
database unchanged, and propagates the error. -/
def runService (etrx : Bool) (body : DbM α) (db : DB) :
    Except Unit α × DB × List TxEvent :=
  match body 0 db with
  | (Except.ok a, _, db2) =>
      if etrx then (Except.ok a, db2, [])
      else (Except.ok a, db2, [TxEvent.start, TxEvent.commit])
  | (Except.error e, _, db2) =>
      if etrx then (Except.error e, db2, [])
      else (Except.error e, db, [TxEvent.start, TxEvent.rollback])

/-- `associateMetadata(versionId, metadata, currentUserId, etrx)`. -/
def associateMetadata (etrx : Bool) (fs : List Bool) (versionId : Nat)
    (metadata : List MetadataPair) (currentUserId : Nat) (db : DB) :
    Except Unit (List VersionMetadataRow) × DB × List TxEvent :=
  runService etrx (associateMetadataBody fs versionId metadata currentUserId) db

/-- `createMetadata(metadata, etrx)`. -/
def createMetadata (etrx : Bool) (fs : List Bool) (pairs : List MetadataPair) (db : DB) :
    Except Unit (List MetadataRow) × DB × List TxEvent :=
  runService etrx (createMetadataBody fs pairs) db

/-- `pruneOrphanedMetadata(etrx)`. -/
def pruneOrphanedMetadata (etrx : Bool) (fs : List Bool) (db : DB) :
    Except Unit Nat × DB × List TxEvent :=
  runService etrx (pruneOrphanedMetadataBody fs) db

/-- The metadata ids joined to a version. -/
def joinedIds (db : DB) (versionId : Nat) : List Nat :=
  (db.versionMetadata.filter (fun vm => vm.versionId == versionId)).map (fun vm => vm.metadataId)

/-- The rows `createMetadata` resolves a pair list to, on a given database:
existing rows keep their ids, new pairs get consecutive fresh ids. -/
def createMetadataResult (db : DB) (pairs : List MetadataPair) : List MetadataRow :=
  (splitMetadata db.metadata pairs).1 ++ freshRows db.nextId (splitMetadata db.metadata pairs).2

/-- The metadata ids the incoming set resolves to. -/
def resolvedIds (db : DB) (pairs : List MetadataPair) : List Nat :=
  (createMetadataResult db pairs).map (fun m => m.id)

/-- A row of the version table (the columns used by current-version
resolution). -/
structure VersionRow where
  id : Nat
  objectId : Nat
  createdAt : Nat
  deleteMarker : Bool
deriving DecidableEq, Repr

/-- The rows admitted by the graph modifier of `fetchMetadataForObject`:
versions of the object with `deleteMarker = false`. -/
def nonMarkerVersionsFor (objectId : Nat) (rows : List VersionRow) : List VersionRow :=
  rows.filter (fun v => v.objectId == objectId && !v.deleteMarker)

/-- An output ordering admitted by `orderBy createdAt desc`: a permutation
of the rows sorted by createdAt descending.  The SQL fixes no further order
among equal timestamps, so any such permutation is a possible execution. -/
def sortedByCreatedAtDesc (l : List VersionRow) : Prop :=
  l.Pairwise (fun a b => b.createdAt ≤ a.createdAt)

/-- `pick` is a possible current-version result for the object: the head of
some admissible ordering of its non-delete-marker versions (`distinctOn`
keeps the first row of the order for the object). -/
def isCurrentVersionResult (rows : List VersionRow) (objectId : Nat)
    (pick : Option VersionRow) : Prop :=
  ∃ out, (nonMarkerVersionsFor objectId rows).Perm out ∧ sortedByCreatedAtDesc out ∧
    pick = out.head?

/-- An HTTP query-string parameter: absent, one value, or repeated. -/
inductive QueryParam
  | none
  | one (s : String)
  | many (l : List String)
deriving DecidableEq, Repr

/-- Modelled from the spec: `type.uuidv4` of the validators' common module
(which is not under src) accepts a single uuid string; the exact uuid
grammar is abstracted to a 36-character check, which is all the claims
need. -/
def uuidv4Ok (s : String) : Bool := s.length == 36

/-- Modelled from the spec: `scheme.guid` of the validators' common module —
an optional single uuid or an array of uuids. -/
def guidOk : QueryParam → Bool
  | QueryParam.none => true
  | QueryParam.one s => uuidv4Ok s
  | QueryParam.many l => l.all uuidv4Ok

/-- Modelled from the spec: the permission codes of components/constants. -/
def permCodes : List String := ["CREATE", "READ", "UPDATE", "DELETE", "MANAGE"]

/-- Modelled from the spec: `scheme.permCode`, an optional single valid
permission code. -/
def permCodeOk : QueryParam → Bool
  | QueryParam.none => true
  | QueryParam.one s => permCodes.contains s
  | QueryParam.many _ => false

/-- The parsed query of `searchPermissions` (`objectPerms` after the truthy
parse of `type.truthy`). -/
structure SearchPermissionsQuery where
  bucketId : QueryParam
  objectPerms : Option Bool
  permCode : QueryParam
  userId : QueryParam
deriving DecidableEq, Repr

/-- The `schema.searchPermissions` Joi object (validators, second document
in services/metadata.js): `userId` is conditional on `objectPerms` — when
`objectPerms = true` a single uuid is required (absence, or an array, is
rejected), otherwise the optional `guid` scheme applies. -/
def searchPermissionsValid (q : SearchPermissionsQuery) : Bool :=
  guidOk q.bucketId &&
  permCodeOk q.permCode &&
  (if q.objectPerms = Option.some true then
    match q.userId with
    | QueryParam.one s => uuidv4Ok s
    | _ => false
  else guidOk q.userId)

/-- The Tagging payload of a storage command: `putObject` embeds tags
URL-encoded in the put itself; `putObjectTagging` carries a structured
TagSet. -/
inductive TagPayload
  | urlEncoded (s : String)
  | tagSet (tags : List (String × String))
deriving DecidableEq, Repr

/-- The input of a put-object command. -/
structure PutObjectInput where
  contentType : String
  key : String
  metadata : List (String × String)
  tagging : Option TagPayload
deriving DecidableEq, Repr

/-- Storage commands sent to the S3 client (the kinds `upload` and
`putObject` issue). -/
inductive S3Command
  | putObject (input : PutObjectInput)
  | putObjectTagging (key : String) (payload : TagPayload)
deriving DecidableEq, Repr

/-- URL-encoding of tags as `k1=v1&k2=v2`. -/
def urlEncodeTags (tags : List (String × String)) : String :=
  String.intercalate "&" (tags.map (fun kv => kv.1 ++ "=" ++ kv.2))

/-- Modelled from the spec and the storage unit tests (the storage service
source is not under src): `putObject` sends one put-object command; when
tags are supplied they ride inside it, URL-encoded (tests lines 531-549). -/
def putObject (key mimeType : String) (metadata : List (String × String))
    (tags : Option (List (String × String))) : List S3Command :=
  [S3Command.putObject (PutObjectInput.mk mimeType key metadata
    (match tags with
     | Option.some t => Option.some (TagPayload.urlEncoded (urlEncodeTags t))
     | Option.none => Option.none))]

/-- Modelled from the spec and the storage unit tests: `upload` sends a
put-object command first and, only when tags are supplied, a separate
put-object-tagging command second, carrying the tags as a structured TagSet
(tests lines 696-766). -/
def upload (key mimeType : String) (metadata : List (String × String))
    (tags : Option (List (String × String))) : List S3Command :=
  [S3Command.putObject (PutObjectInput.mk mimeType key metadata Option.none)] ++
  (match tags with
   | Option.some t => [S3Command.putObjectTagging key (TagPayload.tagSet t)]
   | Option.none => [])

/-- The JWT claims consumed by `_tokenToUser`. -/
structure Token where
  sub : String
  identityProviderIdentity : String
  givenName : String
  familyName : String
  name : String
  email : String
  identityProvider : Option String
deriving DecidableEq, Repr

/-- The mapped user fields (`_tokenToUser` output, without userId). -/
structure UserAttrs where
  identityId : String
  username : String
  firstName : String
  lastName : String
  fullName : String
  email : String
  idp : Option String
deriving DecidableEq, Repr

/-- Modelled from the spec and the user service unit tests (the user service
source is not under src): `_tokenToUser` maps claims to user fields. -/
def tokenToUser (t : Token) : UserAttrs :=
  UserAttrs.mk t.sub t.identityProviderIdentity t.givenName t.familyName t.name
    t.email t.identityProvider

/-- The User and IdentityProvider tables. -/
structure UserDB where
  idps : List String
  users : List (Nat × UserAttrs)
  nextUserId : Nat
deriving DecidableEq, Repr

/-- Database calls traced by the user service model. -/
inductive UserCall
  | readIdp (idp : String)
  | createIdp (idp : String)
  | insertUser
  | readUser (userId : Nat)
  | patchUser (userId : Nat)
  | createUserCall
  | updateUserCall (userId : Nat)
deriving DecidableEq, Repr

/-- Modelled from the spec (§4.5) and the createUser unit tests: when the
user carries an idp code, look it up and create the IdentityProvider row
first if absent, then insert the user row; a user without idp (the System
user) performs no IdentityProvider call at all. -/
def createUser (u : UserAttrs) (db : UserDB) : UserDB × Nat × List UserCall :=
  match u.idp with
  | Option.some p =>
    if db.idps.contains p then
      ({ db with users := db.users ++ [(db.nextUserId, u)], nextUserId := db.nextUserId + 1 },
       db.nextUserId, [UserCall.readIdp p, UserCall.insertUser])
    else
      ({ db with idps := db.idps ++ [p],
                 users := db.users ++ [(db.nextUserId, u)],
                 nextUserId := db.nextUserId + 1 },
       db.nextUserId, [UserCall.readIdp p, UserCall.createIdp p, UserCall.insertUser])
  | Option.none =>
    ({ db with users := db.users ++ [(db.nextUserId, u)], nextUserId := db.nextUserId + 1 },
     db.nextUserId, [UserCall.insertUser])

/-- Modelled from the spec and the updateUser unit tests: read the stored
user; if every mapped field is unchanged do nothing (no patch call),
otherwise patch the stored record. -/
def updateUser (userId : Nat) (data : UserAttrs) (db : UserDB) : UserDB × List UserCall :=
  match db.users.find? (fun row => row.1 == userId) with
  | Option.none => (db, [UserCall.readUser userId])
  | Option.some row =>
    if row.2 = data then (db, [UserCall.readUser userId])
    else
      ({ db with users := db.users.map (fun r => if r.1 == userId then (r.1, data) else r) },
       [UserCall.readUser userId, UserCall.patchUser userId])

/-- Modelled from the spec and the login unit tests: map claims to user
fields, look the user up by identityId; absent means `createUser`, present
means `updateUser`. -/
def login (t : Token) (db : UserDB) : UserDB × List UserCall :=
  match db.users.find? (fun row => row.2.identityId == (tokenToUser t).identityId) with
  | Option.none =>
    ((createUser (tokenToUser t) db).1,
     UserCall.createUserCall :: (createUser (tokenToUser t) db).2.2)
  | Option.some row =>
    ((updateUser row.1 (tokenToUser t) db).1,
     UserCall.updateUserCall row.1 :: (updateUser row.1 (tokenToUser t) db).2)

/-- A row of the object table (the columns used by
`fetchMetadataForObject`). -/
structure ObjectRow where
  id : Nat
  bucketId : Nat
deriving DecidableEq, Repr

/-- A permission grant row: object- or bucket-scoped. -/
structure PermissionRow where
  userId : Nat
  objectId : Option Nat
  bucketId : Option Nat
  permCode : String
deriving DecidableEq, Repr

/-- The slice of the catalog read by `fetchMetadataForObject`. -/
structure CatalogDB where
  objects : List ObjectRow
  versions : List VersionRow
  metadata : List MetadataRow
  versionMetadata : List VersionMetadataRow
  permissions : List PermissionRow
deriving DecidableEq, Repr

/-- Modelled from the spec (§4.2): the `hasPermission` modifier restricts to
objects with a qualifying READ grant at object level or bucket level. -/
def hasReadPermission (db : CatalogDB) (userId : Nat) (o : ObjectRow) : Bool :=
  db.permissions.any (fun p => p.userId == userId && p.permCode == "READ" &&
    (p.objectId == Option.some o.id || p.bucketId == Option.some o.bucketId))

/-- Parameters of `fetchMetadataForObject`. -/
structure FetchParams where
  objId : Option (List Nat)
  metadata : Option (List MetadataPair)
  userId : Option Nat
deriving DecidableEq, Repr

/-- The runtime error raised by dereferencing `version[0]` of an empty
relation array (`.metadata` of `undefined`). -/
inductive JsError
  | typeError
deriving DecidableEq, Repr

/-- The objects matched by the filters of `fetchMetadataForObject`
(`filterIds` on objId and the READ permission scope). -/
def matchedObjects (db : CatalogDB) (params : FetchParams) : List ObjectRow :=
  db.objects.filter (fun o =>
    (match params.objId with
     | Option.some l => l.contains o.id
     | Option.none => true) &&
    (match params.userId with
     | Option.some u => hasReadPermission db u o
     | Option.none => true))

/-- The latest non-delete-marker version of an object (first maximal
createdAt in table order) — the row `distinctOn` keeps for the object. -/
def latestNonMarkerVersion (db : CatalogDB) (objectId : Nat) : Option VersionRow :=
  (nonMarkerVersionsFor objectId db.versions).foldl
    (fun acc v =>
      match acc with
      | Option.none => Option.some v
      | Option.some w => if w.createdAt < v.createdAt then Option.some v else Option.some w)
    Option.none

/-- The metadata (key, value) list of a version, filtered by the metadata
parameter. -/
def metadataForVersion (db : CatalogDB) (versionId : Nat)
    (mfilter : Option (List MetadataPair)) : List MetadataPair :=
  match mfilter with
  | Option.none =>
    (db.versionMetadata.filter (fun vm => vm.versionId == versionId)).filterMap
      (fun vm => (db.metadata.find? (fun m => m.id == vm.metadataId)).map
        (fun m => MetadataPair.mk m.key m.value))
  | Option.some f =>
    ((db.versionMetadata.filter (fun vm => vm.versionId == versionId)).filterMap
      (fun vm => (db.metadata.find? (fun m => m.id == vm.metadataId)).map
        (fun m => MetadataPair.mk m.key m.value))).filter
      (fun p => f.any (fun q => q.key == p.key && q.value == p.value))

/-- A JS `.map` whose callback can throw: stops at the first error. -/
def mapThrow {α β : Type} (f : α → Except JsError β) : List α → Except JsError (List β)
  | [] => Except.ok []
  | x :: xs =>
    match f x with
    | Except.error e => Except.error e
    | Except.ok y =>
      match mapThrow f xs with
      | Except.error e => Except.error e
      | Except.ok ys => Except.ok (y :: ys)

/-- `fetchMetadataForObject` (services/metadata.js): one row per matched
object carrying its (at most one) current version with its metadata; the
result shaping accesses `row.version[0].metadata`, which throws a TypeError
when the object's version array is empty. -/
def fetchMetadataForObject (db : CatalogDB) (params : FetchParams) :
    Except JsError (List (Nat × List MetadataPair)) :=
  mapThrow (fun o =>
    match latestNonMarkerVersion db o.id with
    | Option.some v => Except.ok (o.id, metadataForVersion db v.id params.metadata)
    | Option.none => Except.error JsError.typeError)
    (matchedObjects db params)

/-- Running a bind: expose the underlying match. -/
theorem DbM.run_bind {α β : Type} (x : DbM α) (f : α → DbM β) (n : Nat) (db : DB) :
    (x >>= f) n db =
      match x n db with
      | (Except.ok a, n2, db2) => f a n2 db2
      | (Except.error e, n2, db2) => (Except.error e, n2, db2) := rfl

/-- A successful bind factors through a successful first computation. -/
theorem DbM.bind_ok {α β : Type} {x : DbM α} {f : α → DbM β} {n : Nat} {db : DB}
    {b : β} {n2 : Nat} {db2 : DB}
    (h : (x >>= f) n db = (Except.ok b, n2, db2)) :
    ∃ a n1 db1, x n db = (Except.ok a, n1, db1) ∧ f a n1 db1 = (Except.ok b, n2, db2) := by
  rw [DbM.run_bind] at h
  rcases hx : x n db with ⟨r, n1, db1⟩
  rw [hx] at h
  cases r with
  | ok a => exact ⟨a, n1, db1, rfl, h⟩
  | error e => exact absurd h (by simp)

/-- A successful database statement applies its transform. -/
theorem dbStep_ok {α : Type} {fs : List Bool} {g : DB → α × DB} {n : Nat} {db : DB}
    {a : α} {n2 : Nat} {db2 : DB}
    (h : dbStep fs g n db = (Except.ok a, n2, db2)) :
    a = (g db).1 ∧ db2 = (g db).2 ∧ n2 = n + 1 := by
  unfold dbStep at h
  split at h
  · simp at h
  · injection h with h1 h2
    injection h2 with h2 h3
    injection h1 with h1
    exact ⟨h1.symm, h3.symm, h2.symm⟩

/-- A successful select reads the database and leaves it unchanged. -/
theorem dbSelect_ok {α : Type} {fs : List Bool} {f : DB → α} {n : Nat} {db : DB}
    {a : α} {n2 : Nat} {db2 : DB}
    (h : dbSelect fs f n db = (Except.ok a, n2, db2)) :
    a = f db ∧ db2 = db ∧ n2 = n + 1 :=
  dbStep_ok h

/-- Inversion for `pure` runs. -/
theorem DbM.pure_ok {α : Type} {a b : α} {n : Nat} {db : DB} {n2 : Nat} {db2 : DB}
    (h : (pure a : DbM α) n db = (Except.ok b, n2, db2)) :
    b = a ∧ n2 = n ∧ db2 = db := by
  injection h with h1 h2
  injection h2 with h2 h3
  injection h1 with h1
  exact ⟨h1.symm, h2.symm, h3.symm⟩

/-- The empty failure schedule never fails a statement. -/
theorem getD_nil_false (n : Nat) : ([] : List Bool).getD n false = false := by
  cases n <;> rfl

/-- A statement under the empty failure schedule succeeds. -/
theorem dbStep_noFail {α : Type} (g : DB → α × DB) (n : Nat) (db : DB) :
    dbStep [] g n db = (Except.ok (g db).1, n + 1, (g db).2) := by
  simp [dbStep, getD_nil_false]

/-- A select under the empty failure schedule succeeds. -/
theorem dbSelect_noFail {α : Type} (f : DB → α) (n : Nat) (db : DB) :
    dbSelect [] f n db = (Except.ok (f db), n + 1, db) :=
  dbStep_noFail _ n db

/-- A successful wrapped call comes from a successful body run whose final
state is the returned database. -/
theorem runService_ok {α : Type} {etrx : Bool} {body : DbM α} {db : DB}
    {a : α} {db2 : DB} {evts : List TxEvent}
    (h : runService etrx body db = (Except.ok a, db2, evts)) :
    ∃ n2, body 0 db = (Except.ok a, n2, db2) := by
  unfold runService at h
  rcases hb : body 0 db with ⟨r, n3, db3⟩
  rw [hb] at h
  cases r with
  | ok b =>
    cases etrx with
    | false =>
      simp only [Bool.false_eq_true, if_false, Prod.mk.injEq, Except.ok.injEq] at h
      exact ⟨n3, by rw [h.1, h.2.1]⟩
    | true =>
      simp only [if_true, Prod.mk.injEq, Except.ok.injEq] at h
      exact ⟨n3, by rw [h.1, h.2.1]⟩
  | error e =>
    cases etrx with
    | false => simp at h
    | true => simp at h

/-- With a caller-supplied transaction the wrapper never commits nor rolls
back. -/
theorem runService_trx_events {α : Type} (body : DbM α) (db : DB) :
    (runService true body db).2.2 = [] := by
  unfold runService
  rcases body 0 db with ⟨r, n2, db2⟩
  cases r <;> simp

/-- With its own transaction, success commits. -/
theorem runService_own_ok {α : Type} (body : DbM α) (db : DB) (a : α)
    (h : (runService false body db).1 = Except.ok a) :
    (runService false body db).2.2 = [TxEvent.start, TxEvent.commit] := by
  unfold runService at h ⊢
  rcases hb : body 0 db with ⟨r, n2, db2⟩
  rw [hb] at h
  cases r with
  | ok b => rfl
  | error e => simp at h

/-- With its own transaction, failure rolls back and restores the original
database. -/
theorem runService_own_err {α : Type} (body : DbM α) (db : DB) (e : Unit)
    (h : (runService false body db).1 = Except.error e) :
    (runService false body db).2.2 = [TxEvent.start, TxEvent.rollback] ∧
    (runService false body db).2.1 = db := by
  unfold runService at h ⊢
  rcases hb : body 0 db with ⟨r, n2, db2⟩
  rw [hb] at h
  cases r with
  | ok b => simp at h
  | error e2 => exact ⟨rfl, rfl⟩

/-- For a row of the metadata table, membership of its id in the selected
orphan-id list is exactly non-referencedness. -/
theorem orphanIds_contains (db : DB) (m : MetadataRow) (hm : m ∈ db.metadata) :
    ((db.metadata.filter (fun m2 => !db.versionMetadata.any (fun vm => vm.metadataId == m2.id))).map
      (fun m2 => m2.id)).contains m.id
    = !db.versionMetadata.any (fun vm => vm.metadataId == m.id) := by
  rcases hr : db.versionMetadata.any (fun vm => vm.metadataId == m.id) with _ | _
  · -- not referenced: m itself is selected as an orphan
    simp only [Bool.not_false]
    rw [List.contains_eq_any_beq]
    rw [List.any_eq_true]
    refine ⟨m.id, ?_, by simp⟩
    rw [List.mem_map]
    exact ⟨m, by rw [List.mem_filter]; exact ⟨hm, by rw [hr]; rfl⟩, rfl⟩
  · -- referenced: no orphan row can carry this id
    simp only [Bool.not_true]
    rw [List.contains_eq_any_beq]
    rw [List.any_eq_false]
    intro i hi
    rw [List.mem_map] at hi
    obtain ⟨m2, hm2, hid⟩ := hi
    rw [List.mem_filter] at hm2
    intro hbeq
    have hide : m2.id = m.id := by
      have := beq_iff_eq.mp hbeq
      omega
    have : db.versionMetadata.any (fun vm => vm.metadataId == m2.id) = true := by
      rw [hide, hr]
    rw [this] at hm2
    simp at hm2

/-- A successful `pruneOrphanedMetadata` body deletes exactly the metadata
rows with no remaining version_metadata reference, and touches nothing
else. -/
theorem pruneOrphanedMetadataBody_ok {fs : List Bool} {n : Nat} {db : DB}
    {r : Nat} {n2 : Nat} {db2 : DB}
    (h : pruneOrphanedMetadataBody fs n db = (Except.ok r, n2, db2)) :
    db2.versionMetadata = db.versionMetadata ∧ db2.nextId = db.nextId ∧
    db2.metadata = db.metadata.filter
      (fun m => db.versionMetadata.any (fun vm => vm.metadataId == m.id)) := by
  obtain ⟨orphanIds, n1, db1, h1, h2⟩ := DbM.bind_ok h
  obtain ⟨ho, hdb1, _⟩ := dbSelect_ok h1
  obtain ⟨_, hdb2, _⟩ := dbStep_ok h2
  simp only [] at ho hdb2
  rw [hdb1] at hdb2
  refine ⟨by rw [hdb2], by rw [hdb2], ?_⟩
  rw [hdb2]
  show db.metadata.filter (fun m => !orphanIds.contains m.id) = _
  rw [ho]
  apply List.filter_congr
  intro m hm
  rw [orphanIds_contains db m hm, Bool.not_not]

/-- Membership in the joined-id list of a version. -/
theorem mem_joinedIds (db : DB) (vid : Nat) (i : Nat) :
    i ∈ joinedIds db vid ↔
    ∃ vm, vm ∈ db.versionMetadata ∧ vm.versionId = vid ∧ vm.metadataId = i := by
  unfold joinedIds
  constructor
  · intro hi
    rw [List.mem_map] at hi
    obtain ⟨vm, hvm, hmid⟩ := hi
    rw [List.mem_filter] at hvm
    exact ⟨vm, hvm.1, beq_iff_eq.mp hvm.2, hmid⟩
  · rintro ⟨vm, hmem, hvid, hmid⟩
    rw [List.mem_map]
    exact ⟨vm, by rw [List.mem_filter]; exact ⟨hmem, beq_iff_eq.mpr hvid⟩, hmid⟩

/-- Membership in the resolved-id list. -/
theorem mem_resolvedIds (db : DB) (pairs : List MetadataPair) (i : Nat) :
    i ∈ resolvedIds db pairs ↔ ∃ m, m ∈ createMetadataResult db pairs ∧ m.id = i := by
  simp [resolvedIds]

/-- After reconciliation the metadata ids joined to the version are exactly
the ids of the target rows. -/
theorem mem_reconcileJoins (vid uid : Nat) (T : List MetadataRow)
    (VM : List VersionMetadataRow) (i : Nat) :
    (∃ vm, vm ∈ reconcileJoins vid uid T VM ∧ vm.versionId = vid ∧ vm.metadataId = i) ↔
    (∃ m, m ∈ T ∧ m.id = i) := by
  unfold reconcileJoins dissociateOf newJoinsOf deleteJoins
  have memC : ∀ vm : VersionMetadataRow,
      vm ∈ VM.filter (fun vm => vm.versionId == vid) ↔ vm ∈ VM ∧ vm.versionId = vid := by
    intro vm
    rw [List.mem_filter, beq_iff_eq]
  have inTdep : ∀ j : Nat, (T.any (fun m => m.id == j) = true) ↔ (∃ m, m ∈ T ∧ m.id = j) := by
    intro j
    rw [List.any_eq_true]
    constructor
    · rintro ⟨m, hm, hb⟩; exact ⟨m, hm, beq_iff_eq.mp hb⟩
    · rintro ⟨m, hm, he⟩; exact ⟨m, hm, beq_iff_eq.mpr he⟩
  have memD : ∀ vm : VersionMetadataRow,
      vm ∈ (VM.filter (fun vm => vm.versionId == vid)).filter
          (fun vm => !T.any (fun m => m.id == vm.metadataId)) ↔
      ((vm ∈ VM ∧ vm.versionId = vid) ∧ ¬∃ m, m ∈ T ∧ m.id = vm.metadataId) := by
    intro vm
    rw [List.mem_filter, memC]
    constructor
    · rintro ⟨h1, h2⟩
      refine ⟨h1, ?_⟩
      intro hex
      rw [Bool.not_eq_true', ← Bool.not_eq_true] at h2
      exact h2 ((inTdep vm.metadataId).mpr hex)
    · rintro ⟨h1, h2⟩
      refine ⟨h1, ?_⟩
      rw [Bool.not_eq_true', ← Bool.not_eq_true]
      intro hany
      exact h2 ((inTdep vm.metadataId).mp hany)
  have memDids : ∀ j : Nat,
      ((((VM.filter (fun vm => vm.versionId == vid)).filter
          (fun vm => !T.any (fun m => m.id == vm.metadataId))).map
          (fun d => d.metadataId)).contains j = true) ↔
      ((∃ vm, vm ∈ VM ∧ vm.versionId = vid ∧ vm.metadataId = j) ∧
        ¬∃ m, m ∈ T ∧ m.id = j) := by
    intro j
    rw [List.contains_eq_any_beq, List.any_eq_true]
    constructor
    · rintro ⟨k, hk, hb⟩
      rw [List.mem_map] at hk
      obtain ⟨vm, hvm, hmid⟩ := hk
      rw [memD] at hvm
      have hkj : j = k := beq_iff_eq.mp hb
      subst hkj
      subst hmid
      exact ⟨⟨vm, hvm.1.1, hvm.1.2, rfl⟩, hvm.2⟩
    · rintro ⟨⟨vm, hvm, hvid, hmid⟩, hnT⟩
      refine ⟨j, ?_, by simp⟩
      rw [List.mem_map]
      refine ⟨vm, ?_, hmid⟩
      rw [memD]
      rw [hmid]
      exact ⟨⟨hvm, hvid⟩, hnT⟩
  have memNJ : ∀ m : MetadataRow,
      m ∈ T.filter (fun m => !(VM.filter (fun vm => vm.versionId == vid)).any
          (fun vm => vm.metadataId == m.id)) ↔
      (m ∈ T ∧ ¬∃ vm, vm ∈ VM ∧ vm.versionId = vid ∧ vm.metadataId = m.id) := by
    intro m
    rw [List.mem_filter, Bool.not_eq_true', ← Bool.not_eq_true, List.any_eq_true]
    constructor
    · rintro ⟨hm, hno⟩
      refine ⟨hm, ?_⟩
      rintro ⟨vm, hvm, hvid, hmid⟩
      exact hno ⟨vm, (memC vm).mpr ⟨hvm, hvid⟩, beq_iff_eq.mpr hmid⟩
    · rintro ⟨hm, hno⟩
      refine ⟨hm, ?_⟩
      rintro ⟨vm, hvm, hb⟩
      rw [memC] at hvm
      exact hno ⟨vm, hvm.1, hvm.2, beq_iff_eq.mp hb⟩
  have memMk : ∀ (rows : List MetadataRow) (j : Nat),
      (∃ vm, vm ∈ mkJoinRows vid uid rows ∧ vm.versionId = vid ∧ vm.metadataId = j) ↔
      ∃ m, m ∈ rows ∧ m.id = j := by
    intro rows j
    unfold mkJoinRows
    constructor
    · rintro ⟨vm, hvm, _, hmid⟩
      rw [List.mem_map] at hvm
      obtain ⟨m, hm, hvmval⟩ := hvm
      refine ⟨m, hm, ?_⟩
      rw [← hmid, ← hvmval]
    · rintro ⟨m, hm, hj⟩
      refine ⟨VersionMetadataRow.mk vid m.id uid, ?_, rfl, hj⟩
      rw [List.mem_map]
      exact ⟨m, hm, rfl⟩
  by_cases hC : (VM.filter (fun vm => vm.versionId == vid)).length ≠ 0
  · by_cases hD : ((VM.filter (fun vm => vm.versionId == vid)).filter
        (fun vm => !T.any (fun m => m.id == vm.metadataId))).length ≠ 0
    · -- joins exist and some are extraneous: delete then insert
      rw [if_pos ⟨hC, hD⟩, if_pos hC]
      constructor
      · rintro ⟨vm, hvm, hvid, hmid⟩
        rw [List.mem_append] at hvm
        cases hvm with
        | inl hdel =>
          rw [List.mem_filter] at hdel
          obtain ⟨hvmVM, hkeep⟩ := hdel
          rw [Bool.not_eq_true', Bool.and_eq_false_iff] at hkeep
          cases hkeep with
          | inl hkeep =>
            have := (memDids vm.metadataId).not.mp (by rw [hkeep]; simp)
            rw [not_and_or, not_not] at this
            cases this with
            | inl hnc => exact absurd ⟨vm, hvmVM, hvid, rfl⟩ hnc
            | inr hT => rw [← hmid]; exact hT
          | inr hkeep =>
            exact absurd (beq_iff_eq.mpr hvid) (by rw [hkeep]; simp)
        | inr hins =>
          have := (memMk _ i).mp ⟨vm, hins, hvid, hmid⟩
          obtain ⟨m, hm, hj⟩ := this
          rw [memNJ] at hm
          exact ⟨m, hm.1, hj⟩
      · rintro ⟨m, hmT, hmi⟩
        by_cases hIn : ∃ vm, vm ∈ VM ∧ vm.versionId = vid ∧ vm.metadataId = i
        · obtain ⟨vm, hvm, hvid, hmid⟩ := hIn
          refine ⟨vm, ?_, hvid, hmid⟩
          rw [List.mem_append]
          left
          rw [List.mem_filter]
          refine ⟨hvm, ?_⟩
          rw [Bool.not_eq_true', Bool.and_eq_false_iff]
          left
          rw [← Bool.not_eq_true, memDids]
          rintro ⟨_, hnT⟩
          rw [hmid] at hnT
          exact hnT ⟨m, hmT, hmi⟩
        · have hm2 : m ∈ T.filter (fun m => !(VM.filter (fun vm => vm.versionId == vid)).any
              (fun vm => vm.metadataId == m.id)) := by
            rw [memNJ]
            exact ⟨hmT, by rw [hmi]; exact hIn⟩
          obtain ⟨vm, hvm, hvid, hmid⟩ := (memMk _ i).mpr ⟨m, hm2, hmi⟩
          exact ⟨vm, by rw [List.mem_append]; right; exact hvm, hvid, hmid⟩
    · -- joins exist but none extraneous: no delete, insert the missing ones
      rw [if_neg (by tauto), if_pos hC]
      rw [not_not] at hD
      have hDnil : ((VM.filter (fun vm => vm.versionId == vid)).filter
          (fun vm => !T.any (fun m => m.id == vm.metadataId))) = [] :=
        List.length_eq_zero.mp hD
      have hCsub : ∀ vm, vm ∈ VM → vm.versionId = vid →
          ∃ m, m ∈ T ∧ m.id = vm.metadataId := by
        intro vm hvm hvid
        by_contra hno
        have : vm ∈ ((VM.filter (fun vm => vm.versionId == vid)).filter
            (fun vm => !T.any (fun m => m.id == vm.metadataId))) := by
          rw [memD]
          exact ⟨⟨hvm, hvid⟩, hno⟩
        rw [hDnil] at this
        exact absurd this (List.not_mem_nil vm)
      constructor
      · rintro ⟨vm, hvm, hvid, hmid⟩
        rw [List.mem_append] at hvm
        cases hvm with
        | inl hkeep =>
          have := hCsub vm hkeep hvid
          rw [hmid] at this
          exact this
        | inr hins =>
          obtain ⟨m, hm, hj⟩ := (memMk _ i).mp ⟨vm, hins, hvid, hmid⟩
          rw [memNJ] at hm
          exact ⟨m, hm.1, hj⟩
      · rintro ⟨m, hmT, hmi⟩
        by_cases hIn : ∃ vm, vm ∈ VM ∧ vm.versionId = vid ∧ vm.metadataId = i
        · obtain ⟨vm, hvm, hvid, hmid⟩ := hIn
          exact ⟨vm, by rw [List.mem_append]; left; exact hvm, hvid, hmid⟩
        · have hm2 : m ∈ T.filter (fun m => !(VM.filter (fun vm => vm.versionId == vid)).any
              (fun vm => vm.metadataId == m.id)) := by
            rw [memNJ]
            exact ⟨hmT, by rw [hmi]; exact hIn⟩
          obtain ⟨vm, hvm, hvid, hmid⟩ := (memMk _ i).mpr ⟨m, hm2, hmi⟩
          exact ⟨vm, by rw [List.mem_append]; right; exact hvm, hvid, hmid⟩
  · -- the version had no joins: all target rows are inserted
    rw [not_not] at hC
    have hCnil : VM.filter (fun vm => vm.versionId == vid) = [] :=
      List.length_eq_zero.mp hC
    have hnoC : ∀ vm, vm ∈ VM → vm.versionId ≠ vid := by
      intro vm hvm hvid
      have : vm ∈ VM.filter (fun vm => vm.versionId == vid) := (memC vm).mpr ⟨hvm, hvid⟩
      rw [hCnil] at this
      exact absurd this (List.not_mem_nil vm)
    rw [if_neg (by rw [hCnil]; simp), if_neg (by rw [hCnil]; simp)]
    constructor
    · rintro ⟨vm, hvm, hvid, hmid⟩
      rw [List.mem_append] at hvm
      cases hvm with
      | inl hkeep => exact absurd hvid (hnoC vm hkeep)
      | inr hins => exact (memMk _ i).mp ⟨vm, hins, hvid, hmid⟩
    · intro hT
      obtain ⟨vm, hvm, hvid, hmid⟩ := (memMk _ i).mpr hT
      exact ⟨vm, by rw [List.mem_append]; right; exact hvm, hvid, hmid⟩

/-- Reconciliation never touches joins of other versions. -/
theorem reconcileJoins_keeps_other (vid uid : Nat) (T : List MetadataRow)
    (VM : List VersionMetadataRow) (vm : VersionMetadataRow)
    (hvm : vm ∈ VM) (hvid : vm.versionId ≠ vid) :
    vm ∈ reconcileJoins vid uid T VM := by
  unfold reconcileJoins dissociateOf newJoinsOf deleteJoins
  rw [List.mem_append]
  left
  split
  · rw [List.mem_filter]
    refine ⟨hvm, ?_⟩
    rw [Bool.not_eq_true', Bool.and_eq_false_iff]
    right
    rw [beq_eq_false_iff_ne]
    exact hvid
  · exact hvm

/-- Inserted rows are one per pair. -/
theorem freshRows_length (nextId : Nat) (pairs : List MetadataPair) :
    (freshRows nextId pairs).length = pairs.length := by
  induction pairs generalizing nextId with
  | nil => rfl
  | cons p ps ih => simp [freshRows, ih]

/-- The existing/new split preserves the number of incoming pairs. -/
theorem splitMetadata_length (l : List MetadataRow) (pairs : List MetadataPair) :
    (splitMetadata l pairs).1.length + (splitMetadata l pairs).2.length = pairs.length := by
  induction pairs with
  | nil => rfl
  | cons p ps ih =>
    unfold splitMetadata
    cases hh : getObjectsByKeyValue l p.key p.value with
    | none => simp only [hh]; simp at ih ⊢; omega
    | some m => simp only [hh]; simp at ih ⊢; omega

/-- `createMetadata` resolves each incoming pair to one row. -/
theorem createMetadataResult_length (db : DB) (pairs : List MetadataPair) :
    (createMetadataResult db pairs).length = pairs.length := by
  unfold createMetadataResult
  rw [List.length_append, freshRows_length]
  exact splitMetadata_length db.metadata pairs

/-- A successful `createMetadata` body returns exactly the resolved rows;
it never touches version_metadata and only appends to the metadata table. -/
theorem createMetadataBody_ok {fs : List Bool} {pairs : List MetadataPair} {n : Nat} {db : DB}
    {rows : List MetadataRow} {n2 : Nat} {db2 : DB}
    (h : createMetadataBody fs pairs n db = (Except.ok rows, n2, db2)) :
    rows = createMetadataResult db pairs ∧
    db2.versionMetadata = db.versionMetadata ∧
    ∃ tail, db2.metadata = db.metadata ++ tail := by
  unfold createMetadataBody at h
  obtain ⟨allMetadata, n1, db1, h1, h2⟩ := DbM.bind_ok h
  obtain ⟨ha, hdb1, _⟩ := dbSelect_ok h1
  subst ha
  rw [hdb1] at h2
  by_cases hnew : (splitMetadata db.metadata pairs).2.length ≠ 0
  · rw [if_pos hnew] at h2
    obtain ⟨newRecords, nB, dbB, h3, h4⟩ := DbM.bind_ok h2
    obtain ⟨hrec, hdbB, _⟩ := dbStep_ok h3
    simp only [insertMetadataRows] at hrec hdbB
    obtain ⟨hrows, _, hdb2⟩ := DbM.pure_ok h4
    subst hrec
    rw [hdbB] at hdb2
    subst hdb2
    subst hrows
    exact ⟨rfl, rfl, freshRows db.nextId (splitMetadata db.metadata pairs).2, rfl⟩
  · rw [if_neg hnew] at h2
    obtain ⟨hrows, _, hdb2⟩ := DbM.pure_ok h2
    subst hrows
    rw [hdb2]
    rw [not_not, List.length_eq_zero] at hnew
    refine ⟨?_, rfl, [], (List.append_nil db.metadata).symm⟩
    unfold createMetadataResult
    rw [hnew]
    simp [freshRows]

/-- A successful `associateMetadata` body run with a nonempty incoming set:
the final version_metadata table is the reconciliation of the resolved rows
against the initial table, and every metadata row still referenced by some
other version survives. -/
theorem associateMetadataBody_ok {fs : List Bool} {vid uid : Nat}
    {pairs : List MetadataPair} {n : Nat} {db : DB}
    {r : List VersionMetadataRow} {n2 : Nat} {db2 : DB}
    (hne : pairs ≠ [])
    (h : associateMetadataBody fs vid pairs uid n db = (Except.ok r, n2, db2)) :
    db2.versionMetadata =
      reconcileJoins vid uid (createMetadataResult db pairs) db.versionMetadata ∧
    (∀ m, m ∈ db.metadata →
      (∃ vm, vm ∈ db.versionMetadata ∧ vm.versionId ≠ vid ∧ vm.metadataId = m.id) →
      m ∈ db2.metadata) := by
  unfold associateMetadataBody at h
  rw [if_pos (fun hl => hne (List.length_eq_zero.mp hl))] at h
  obtain ⟨T, nA, dbA, hcreate, h2⟩ := DbM.bind_ok h
  obtain ⟨hT, hVA, tail, hMA⟩ := createMetadataBody_ok hcreate
  subst hT
  obtain ⟨assoc, nB, dbB, hsel, h3⟩ := DbM.bind_ok h2
  obtain ⟨hassoc, hdbB, _⟩ := dbSelect_ok hsel
  rw [hVA] at hassoc
  subst hassoc
  rw [hdbB] at h3
  obtain ⟨u, nC, dbC, hMid, h4⟩ := DbM.bind_ok h3
  unfold reconcileJoins
  by_cases hA : (db.versionMetadata.filter (fun vm => vm.versionId == vid)).length ≠ 0
  · rw [if_pos hA] at hMid
    by_cases hDl : (dissociateOf (createMetadataResult db pairs)
        (db.versionMetadata.filter (fun vm => vm.versionId == vid))).length ≠ 0
    · -- delete and prune happen
      rw [if_pos hDl] at hMid
      obtain ⟨u1, nD, dbD, hdel, h5⟩ := DbM.bind_ok hMid
      obtain ⟨_, hdbD, _⟩ := dbStep_ok hdel
      simp only [] at hdbD
      obtain ⟨u2, nP, dbP, hprune, h6⟩ := DbM.bind_ok h5
      obtain ⟨hPV, hPn, hPM⟩ := pruneOrphanedMetadataBody_ok hprune
      obtain ⟨_, _, hdbC⟩ := DbM.pure_ok h6
      rw [hdbC] at h4
      have hDV : dbD.versionMetadata =
          deleteJoins vid (dissociateOf (createMetadataResult db pairs)
            (db.versionMetadata.filter (fun vm => vm.versionId == vid)))
            db.versionMetadata := by
        rw [hdbD, ← hVA]
      have hDM : dbD.metadata = db.metadata ++ tail := by
        rw [hdbD]
        exact hMA
      have hMeta : ∀ m, m ∈ db.metadata →
          (∃ vm, vm ∈ db.versionMetadata ∧ vm.versionId ≠ vid ∧ vm.metadataId = m.id) →
          m ∈ dbP.metadata := by
        intro m hm hex
        rw [hPM]
        simp only [List.mem_filter]
        obtain ⟨vm, hvm, hnvid, hmid⟩ := hex
        constructor
        · rw [hDM]
          exact List.mem_append_left tail hm
        · rw [hDV]
          rw [List.any_eq_true]
          refine ⟨vm, ?_, beq_iff_eq.mpr hmid⟩
          unfold deleteJoins
          rw [List.mem_filter]
          refine ⟨hvm, ?_⟩
          rw [Bool.not_eq_true', Bool.and_eq_false_iff]
          right
          exact beq_eq_false_iff_ne.mpr hnvid
      by_cases hNJ : (newJoinsOf (createMetadataResult db pairs)
          (db.versionMetadata.filter (fun vm => vm.versionId == vid))).length ≠ 0
      · rw [if_pos hNJ] at h4
        obtain ⟨hr, hdb2, _⟩ := dbStep_ok h4
        simp only [] at hdb2
        constructor
        · rw [hdb2]
          show dbP.versionMetadata ++ _ = _
          rw [hPV, hDV, if_pos ⟨hA, hDl⟩]
        · intro m hm hex
          rw [hdb2]
          show m ∈ dbP.metadata
          exact hMeta m hm hex
      · rw [if_neg hNJ] at h4
        obtain ⟨_, _, hdb2⟩ := DbM.pure_ok h4
        rw [hdb2]
        rw [not_not, List.length_eq_zero] at hNJ
        constructor
        · rw [hPV, hDV, if_pos ⟨hA, hDl⟩, hNJ]
          simp [mkJoinRows]
        · exact hMeta
    · -- joins exist, none extraneous: no delete, no prune
      rw [if_neg hDl] at hMid
      obtain ⟨_, _, hdbC⟩ := DbM.pure_ok hMid
      rw [hdbC] at h4
      have hnotand : ¬((db.versionMetadata.filter (fun vm => vm.versionId == vid)).length ≠ 0 ∧
          (dissociateOf (createMetadataResult db pairs)
            (db.versionMetadata.filter (fun vm => vm.versionId == vid))).length ≠ 0) :=
        fun hand => hDl hand.2
      by_cases hNJ : (newJoinsOf (createMetadataResult db pairs)
          (db.versionMetadata.filter (fun vm => vm.versionId == vid))).length ≠ 0
      · rw [if_pos hNJ] at h4
        obtain ⟨hr, hdb2, _⟩ := dbStep_ok h4
        simp only [] at hdb2
        constructor
        · rw [hdb2]
          show dbA.versionMetadata ++ _ = _
          rw [hVA, if_neg hnotand]
        · intro m hm hex
          rw [hdb2]
          show m ∈ dbA.metadata
          rw [hMA]
          exact List.mem_append_left tail hm
      · rw [if_neg hNJ] at h4
        obtain ⟨_, _, hdb2⟩ := DbM.pure_ok h4
        rw [hdb2]
        rw [not_not, List.length_eq_zero] at hNJ
        constructor
        · rw [hVA, if_neg hnotand, hNJ]
          simp [mkJoinRows]
        · intro m hm hex
          rw [hMA]
          exact List.mem_append_left tail hm
  · -- the version had no joins at all
    rw [if_neg hA] at hMid
    obtain ⟨_, _, hdbC⟩ := DbM.pure_ok hMid
    rw [hdbC] at h4
    have hnotand : ¬((db.versionMetadata.filter (fun vm => vm.versionId == vid)).length ≠ 0 ∧
        (dissociateOf (createMetadataResult db pairs)
          (db.versionMetadata.filter (fun vm => vm.versionId == vid))).length ≠ 0) :=
      fun hand => hA hand.1
    by_cases hNJ : (newJoinsOf (createMetadataResult db pairs)
        (db.versionMetadata.filter (fun vm => vm.versionId == vid))).length ≠ 0
    · rw [if_pos hNJ] at h4
      obtain ⟨hr, hdb2, _⟩ := dbStep_ok h4
      simp only [] at hdb2
      constructor
      · rw [hdb2]
        show dbA.versionMetadata ++ _ = _
        rw [hVA, if_neg hnotand]
      · intro m hm hex
        rw [hdb2]
        show m ∈ dbA.metadata
        rw [hMA]
        exact List.mem_append_left tail hm
    · exfalso
      rw [not_not] at hNJ
      have hT2 : newJoinsOf (createMetadataResult db pairs)
          (db.versionMetadata.filter (fun vm => vm.versionId == vid)) =
          createMetadataResult db pairs := by
        unfold newJoinsOf
        rw [if_neg hA]
      rw [hT2, createMetadataResult_length, List.length_eq_zero] at hNJ
      exact hne hNJ

/-- A successful body run determines each component of the wrapped call. -/
theorem runService_components {α : Type} {body : DbM α} {db : DB} {a : α} {n2 : Nat} {db2 : DB}
    (etrx : Bool) (hb : body 0 db = (Except.ok a, n2, db2)) :
    runService etrx body db =
      (Except.ok a, db2, if etrx then [] else [TxEvent.start, TxEvent.commit]) := by
  unfold runService
  rw [hb]
  cases etrx <;> rfl

/-- Claim C1 (corrected): after a successful `associateMetadata(V, S)` call
with a nonempty incoming set S, the metadata ids joined to V are exactly the
ids resolved from S, regardless of the prior join state (no accumulation);
with an empty (or absent) S the call is a no-op that leaves the prior joins
of V unchanged. -/
theorem c1_joins_equal_resolved_set (etrx : Bool) (fs : List Bool) (vid : Nat)
    (pairs : List MetadataPair) (uid : Nat) (db : DB)
    (r : List VersionMetadataRow) (db2 : DB) (evts : List TxEvent)
    (h : associateMetadata etrx fs vid pairs uid db = (Except.ok r, db2, evts)) :
    (pairs ≠ [] → ∀ i : Nat, (i ∈ joinedIds db2 vid ↔ i ∈ resolvedIds db pairs)) ∧
    (pairs = [] → db2 = db) := by
  constructor
  · intro hne i
    obtain ⟨n2, hbody⟩ := runService_ok h
    obtain ⟨hVM, _⟩ := associateMetadataBody_ok hne hbody
    rw [mem_joinedIds, mem_resolvedIds, hVM]
    exact mem_reconcileJoins vid uid (createMetadataResult db pairs) db.versionMetadata i
  · intro hE
    subst hE
    have hcalc : associateMetadata etrx fs vid [] uid db =
        (Except.ok [], db, if etrx then [] else [TxEvent.start, TxEvent.commit]) := by
      cases etrx <;> rfl
    rw [hcalc] at h
    exact (congrArg (fun p => p.2.1) h).symm

/-- Witness for C1: a concrete successful call on an empty database joins
exactly the resolved metadata id 0 to version 1. -/
theorem c1_witness :
    0 ∈ joinedIds (DB.mk [MetadataRow.mk 0 "a" "1"] [VersionMetadataRow.mk 1 0 0] 1) 1 ↔
    0 ∈ resolvedIds (DB.mk [] [] 0) [MetadataPair.mk "a" "1"] :=
  (c1_joins_equal_resolved_set false [] 1 [MetadataPair.mk "a" "1"] 0 (DB.mk [] [] 0)
      [VersionMetadataRow.mk 1 0 0]
      (DB.mk [MetadataRow.mk 0 "a" "1"] [VersionMetadataRow.mk 1 0 0] 1)
      [TxEvent.start, TxEvent.commit] rfl).1 (by decide) 0

/-- Counterexample to claim C1 as universally stated: with the empty set the
call succeeds but the join set of version 9 stays `[5]`, not the empty set
resolved from `[]`. -/
theorem c1_counterexample :
    (associateMetadata false [] 9 [] SYSTEM_USER
        (DB.mk [MetadataRow.mk 5 "k" "v"] [VersionMetadataRow.mk 9 5 0] 6)).1 =
      Except.ok [] ∧
    joinedIds (associateMetadata false [] 9 [] SYSTEM_USER
        (DB.mk [MetadataRow.mk 5 "k" "v"] [VersionMetadataRow.mk 9 5 0] 6)).2.1 9 = [5] ∧
    resolvedIds (DB.mk [MetadataRow.mk 5 "k" "v"] [VersionMetadataRow.mk 9 5 0] 6) [] = [] :=
  ⟨rfl, rfl, rfl⟩

/-- Claim C3 (confirmed): (a) `pruneOrphanedMetadata` deletes exactly the
metadata rows with zero version_metadata references — a row survives iff it
is still referenced — and never touches join rows, so no orphan persists
after pruning and no referenced row is deleted; (b) through a successful
`associateMetadata` on version V, every join of another version survives,
and every metadata row referenced by another version's join survives. -/
theorem c3_prune_exact_and_safe :
    (∀ (db : DB) (etrx : Bool),
      (∃ cnt, (pruneOrphanedMetadata etrx [] db).1 = Except.ok cnt) ∧
      (pruneOrphanedMetadata etrx [] db).2.1.versionMetadata = db.versionMetadata ∧
      (∀ m : MetadataRow, m ∈ (pruneOrphanedMetadata etrx [] db).2.1.metadata ↔
        m ∈ db.metadata ∧
        db.versionMetadata.any (fun vm => vm.metadataId == m.id) = true)) ∧
    (∀ (etrx : Bool) (fs : List Bool) (vid uid : Nat) (pairs : List MetadataPair) (db : DB)
        (r : List VersionMetadataRow) (db2 : DB) (evts : List TxEvent),
      associateMetadata etrx fs vid pairs uid db = (Except.ok r, db2, evts) →
      ∀ vm, vm ∈ db.versionMetadata → vm.versionId ≠ vid →
        vm ∈ db2.versionMetadata ∧
        (∀ m, m ∈ db.metadata → vm.metadataId = m.id → m ∈ db2.metadata)) := by
  constructor
  · intro db etrx
    have hsucc : ∃ res nn dbF, pruneOrphanedMetadataBody [] 0 db = (Except.ok res, nn, dbF) := by
      unfold pruneOrphanedMetadataBody
      rw [DbM.run_bind, dbSelect_noFail]
      exact ⟨_, _, _, dbStep_noFail _ _ _⟩
    obtain ⟨res, nn, dbF, hbody⟩ := hsucc
    obtain ⟨hFV, hFn, hFM⟩ := pruneOrphanedMetadataBody_ok hbody
    unfold pruneOrphanedMetadata
    rw [runService_components etrx hbody]
    refine ⟨⟨res, rfl⟩, hFV, ?_⟩
    intro m
    simp only [hFM, List.mem_filter]
  · intro etrx fs vid uid pairs db r db2 evts h vm hvm hnvid
    by_cases hne : pairs = []
    · subst hne
      have hcalc : associateMetadata etrx fs vid [] uid db =
          (Except.ok [], db, if etrx then [] else [TxEvent.start, TxEvent.commit]) := by
        cases etrx <;> rfl
      rw [hcalc] at h
      have hdb : db = db2 := congrArg (fun p => p.2.1) h
      rw [← hdb]
      exact ⟨hvm, fun m hm _ => hm⟩
    · obtain ⟨n2, hbody⟩ := runService_ok h
      obtain ⟨hVM, hMeta⟩ := associateMetadataBody_ok hne hbody
      constructor
      · rw [hVM]
        exact reconcileJoins_keeps_other vid uid _ _ vm hvm hnvid
      · intro m hm hmid
        exact hMeta m hm ⟨vm, hvm, hnvid, hmid⟩

/-- Witness for C3: versions 1 and 2 share metadata row 5; dissociating it
from version 1 (by associating a different pair) leaves row 5 present and
still joined to version 2. -/
theorem c3_witness :
    VersionMetadataRow.mk 2 5 0 ∈
      (DB.mk [MetadataRow.mk 5 "k" "v"]
        [VersionMetadataRow.mk 2 5 0, VersionMetadataRow.mk 1 6 0] 7).versionMetadata ∧
    MetadataRow.mk 5 "k" "v" ∈
      (DB.mk [MetadataRow.mk 5 "k" "v"]
        [VersionMetadataRow.mk 2 5 0, VersionMetadataRow.mk 1 6 0] 7).metadata := by
  have h := c3_prune_exact_and_safe.2 false [] 1 0 [MetadataPair.mk "x" "y"]
      (DB.mk [MetadataRow.mk 5 "k" "v"]
        [VersionMetadataRow.mk 1 5 0, VersionMetadataRow.mk 2 5 0] 6)
      [VersionMetadataRow.mk 1 6 0]
      (DB.mk [MetadataRow.mk 5 "k" "v"]
        [VersionMetadataRow.mk 2 5 0, VersionMetadataRow.mk 1 6 0] 7)
      [TxEvent.start, TxEvent.commit] rfl
      (VersionMetadataRow.mk 2 5 0) (by decide) (by decide)
  exact ⟨h.1, h.2 (MetadataRow.mk 5 "k" "v") (by decide) (by decide)⟩

/-- Claim C5 (confirmed): with a caller-supplied transaction, none of
`associateMetadata`, `createMetadata`, `pruneOrphanedMetadata` commits or
rolls back; with their own transaction, success commits (start then commit)
and any failure rolls back (start then rollback) leaving the committed
database unchanged, the error being propagated. -/
theorem c5_transaction_discipline (fs : List Bool) (vid : Nat)
    (pairs : List MetadataPair) (uid : Nat) (db : DB) :
    ((associateMetadata true fs vid pairs uid db).2.2 = [] ∧
     (createMetadata true fs pairs db).2.2 = [] ∧
     (pruneOrphanedMetadata true fs db).2.2 = []) ∧
    ((∀ a, (associateMetadata false fs vid pairs uid db).1 = Except.ok a →
        (associateMetadata false fs vid pairs uid db).2.2 =
          [TxEvent.start, TxEvent.commit]) ∧
     (∀ e, (associateMetadata false fs vid pairs uid db).1 = Except.error e →
        (associateMetadata false fs vid pairs uid db).2.2 =
          [TxEvent.start, TxEvent.rollback] ∧
        (associateMetadata false fs vid pairs uid db).2.1 = db)) ∧
    ((∀ a, (createMetadata false fs pairs db).1 = Except.ok a →
        (createMetadata false fs pairs db).2.2 = [TxEvent.start, TxEvent.commit]) ∧
     (∀ e, (createMetadata false fs pairs db).1 = Except.error e →
        (createMetadata false fs pairs db).2.2 = [TxEvent.start, TxEvent.rollback] ∧
        (createMetadata false fs pairs db).2.1 = db)) ∧
    ((∀ a, (pruneOrphanedMetadata false fs db).1 = Except.ok a →
        (pruneOrphanedMetadata false fs db).2.2 = [TxEvent.start, TxEvent.commit]) ∧
     (∀ e, (pruneOrphanedMetadata false fs db).1 = Except.error e →
        (pruneOrphanedMetadata false fs db).2.2 = [TxEvent.start, TxEvent.rollback] ∧
        (pruneOrphanedMetadata false fs db).2.1 = db)) :=
  ⟨⟨runService_trx_events _ _, runService_trx_events _ _, runService_trx_events _ _⟩,
   ⟨fun a h => runService_own_ok _ _ a h, fun e h => runService_own_err _ _ e h⟩,
   ⟨fun a h => runService_own_ok _ _ a h, fun e h => runService_own_err _ _ e h⟩,
   ⟨fun a h => runService_own_ok _ _ a h, fun e h => runService_own_err _ _ e h⟩⟩

/-- Witness for C5: a failing first statement rolls back (database restored,
start/rollback events), a fully successful run commits. -/
theorem c5_witness :
    (associateMetadata false [true] 1 [MetadataPair.mk "a" "1"] 0 (DB.mk [] [] 0)).2.2 =
      [TxEvent.start, TxEvent.rollback] ∧
    (associateMetadata false [true] 1 [MetadataPair.mk "a" "1"] 0 (DB.mk [] [] 0)).2.1 =
      DB.mk [] [] 0 ∧
    (associateMetadata false [] 1 [MetadataPair.mk "a" "1"] 0 (DB.mk [] [] 0)).2.2 =
      [TxEvent.start, TxEvent.commit] := by
  have h1 := (c5_transaction_discipline [true] 1 [MetadataPair.mk "a" "1"] 0
      (DB.mk [] [] 0)).2.1.2 () rfl
  have h2 := (c5_transaction_discipline [] 1 [MetadataPair.mk "a" "1"] 0
      (DB.mk [] [] 0)).2.1.1 [VersionMetadataRow.mk 1 0 0] rfl
  exact ⟨h1.1, h1.2, h2⟩

/-- Claim C2 (corrected): `associateMetadata` with an empty (or absent)
metadata set is a no-op — the guard `metadata && metadata.length` skips the
whole body, so no joins are deleted, no pruning runs, the database is
returned unchanged and the call reports success. -/
theorem c2_empty_set_is_noop (etrx : Bool) (fs : List Bool) (versionId : Nat)
    (currentUserId : Nat) (db : DB) :
    associateMetadata etrx fs versionId [] currentUserId db =
      (Except.ok [], db, if etrx then [] else [TxEvent.start, TxEvent.commit]) := by
  cases etrx <;> rfl

/-- Counterexample to claim C2 as stated: on a database where version 7 is
joined to metadata row 1 and metadata row 2 is orphaned, calling
`associateMetadata(7, [])` leaves the join for version 7 in place (nothing
is dissociated) and leaves the orphaned metadata row 2 unpruned. -/
theorem c2_counterexample :
    joinedIds (associateMetadata false [] 7 [] SYSTEM_USER
        (DB.mk [MetadataRow.mk 1 "a" "1", MetadataRow.mk 2 "b" "2"]
          [VersionMetadataRow.mk 7 1 0] 3)).2.1 7 = [1] ∧
    MetadataRow.mk 2 "b" "2" ∈ (associateMetadata false [] 7 [] SYSTEM_USER
        (DB.mk [MetadataRow.mk 1 "a" "1", MetadataRow.mk 2 "b" "2"]
          [VersionMetadataRow.mk 7 1 0] 3)).2.1.metadata := by
  constructor
  · rfl
  · decide

/-- Any possible current-version result is a non-marker version of maximal
createdAt, and the result is none exactly when no non-marker version
exists. -/
theorem isCurrentVersionResult_spec (rows : List VersionRow) (objectId : Nat)
    (pick : Option VersionRow) (h : isCurrentVersionResult rows objectId pick) :
    (pick = Option.none ↔ nonMarkerVersionsFor objectId rows = []) ∧
    (∀ v, pick = Option.some v → v ∈ nonMarkerVersionsFor objectId rows ∧
      ∀ w, w ∈ nonMarkerVersionsFor objectId rows → w.createdAt ≤ v.createdAt) := by
  obtain ⟨out, hperm, hsort, hpick⟩ := h
  subst hpick
  cases out with
  | nil =>
    constructor
    · constructor
      · intro _
        exact hperm.eq_nil
      · intro _
        rfl
    · intro v hv
      simp at hv
  | cons a t =>
    unfold sortedByCreatedAtDesc at hsort
    rw [List.pairwise_cons] at hsort
    constructor
    · constructor
      · intro hno
        simp at hno
      · intro hnil
        rw [hnil] at hperm
        have := hperm.symm.eq_nil
        simp at this
    · intro v hv
      simp only [List.head?] at hv
      injection hv with hv
      subst hv
      constructor
      · exact hperm.mem_iff.mpr (List.mem_cons_self a t)
      · intro w hw
        rcases List.mem_cons.mp (hperm.mem_iff.mp hw) with h2 | h2
        · rw [h2]
        · exact hsort.1 w h2

/-- Claim C4 (corrected): current-version resolution returns a version with
the greatest createdAt whose deleteMarker = false (none exactly when there
is no such version); when no two non-marker versions share a createdAt the
result is unique, hence deterministic — but the query specifies no tie-break
among equal timestamps (see the counterexample). -/
theorem c4_current_version_resolution (rows : List VersionRow) (objectId : Nat)
    (pick : Option VersionRow) (h : isCurrentVersionResult rows objectId pick) :
    (pick = Option.none ↔ nonMarkerVersionsFor objectId rows = []) ∧
    (∀ v, pick = Option.some v → v ∈ nonMarkerVersionsFor objectId rows ∧
      ∀ w, w ∈ nonMarkerVersionsFor objectId rows → w.createdAt ≤ v.createdAt) ∧
    ((∀ v w, v ∈ nonMarkerVersionsFor objectId rows →
        w ∈ nonMarkerVersionsFor objectId rows → v.createdAt = w.createdAt → v = w) →
      ∀ pick2, isCurrentVersionResult rows objectId pick2 → pick2 = pick) := by
  obtain ⟨h1, h2⟩ := isCurrentVersionResult_spec rows objectId pick h
  refine ⟨h1, h2, ?_⟩
  intro hinj pick2 hres2
  obtain ⟨h1b, h2b⟩ := isCurrentVersionResult_spec rows objectId pick2 hres2
  cases hpick : pick with
  | none =>
    have hnil := h1.mp hpick
    exact h1b.mpr hnil
  | some v =>
    cases hpick2 : pick2 with
    | none =>
      have hnil := h1b.mp hpick2
      rw [hpick] at h1
      have := h1.mpr hnil
      simp at this
    | some w =>
      obtain ⟨hvmem, hvmax⟩ := h2 v hpick
      obtain ⟨hwmem, hwmax⟩ := h2b w hpick2
      have heq : w.createdAt = v.createdAt :=
        Nat.le_antisymm (hvmax w hwmem) (hwmax v hvmem)
      rw [hinj w v hwmem hvmem heq]

/-- Witness for C4: for an object with versions at distinct timestamps, the
later one resolves as current. -/
theorem c4_witness :
    ((Option.some (VersionRow.mk 3 1 7 false) = (Option.none : Option VersionRow)) ↔
      nonMarkerVersionsFor 1 [VersionRow.mk 3 1 7 false, VersionRow.mk 4 1 2 false] = []) :=
  (c4_current_version_resolution [VersionRow.mk 3 1 7 false, VersionRow.mk 4 1 2 false] 1
    (Option.some (VersionRow.mk 3 1 7 false))
    ⟨[VersionRow.mk 3 1 7 false, VersionRow.mk 4 1 2 false], List.Perm.refl _,
      by unfold sortedByCreatedAtDesc; decide, rfl⟩).1

/-- Counterexample to claim C4 as stated: two non-delete-marker versions of
object 1 share createdAt = 5; both are possible current-version results of
the query, which orders only by createdAt — the tie is not broken by
insertion order (version 2, the later insert, can be returned as well as
version 1), so the resolution is not deterministic. -/
theorem c4_counterexample :
    isCurrentVersionResult [VersionRow.mk 1 1 5 false, VersionRow.mk 2 1 5 false] 1
      (Option.some (VersionRow.mk 1 1 5 false)) ∧
    isCurrentVersionResult [VersionRow.mk 1 1 5 false, VersionRow.mk 2 1 5 false] 1
      (Option.some (VersionRow.mk 2 1 5 false)) ∧
    VersionRow.mk 1 1 5 false ≠ VersionRow.mk 2 1 5 false := by
  refine ⟨⟨[VersionRow.mk 1 1 5 false, VersionRow.mk 2 1 5 false], List.Perm.refl _,
      by unfold sortedByCreatedAtDesc; decide, rfl⟩,
    ⟨[VersionRow.mk 2 1 5 false, VersionRow.mk 1 1 5 false], by decide,
      by unfold sortedByCreatedAtDesc; decide, rfl⟩, by decide⟩

/-- Claim C6 (confirmed): when `objectPerms = true`, a valid query supplies
exactly one userId (a single uuid); a query with `objectPerms = true` and no
userId is rejected; when objectPerms is not true, userId is optional —
absence alone never rejects. -/
theorem c6_searchPermissions_userId (q : SearchPermissionsQuery) :
    (q.objectPerms = Option.some true → searchPermissionsValid q = true →
      ∃ s, q.userId = QueryParam.one s ∧ uuidv4Ok s = true) ∧
    (q.objectPerms = Option.some true → q.userId = QueryParam.none →
      searchPermissionsValid q = false) ∧
    (q.objectPerms ≠ Option.some true → q.userId = QueryParam.none →
      guidOk q.bucketId = true → permCodeOk q.permCode = true →
      searchPermissionsValid q = true) := by
  refine ⟨?_, ?_, ?_⟩
  · intro hop hval
    unfold searchPermissionsValid at hval
    rw [if_pos hop] at hval
    rcases hu : q.userId with _ | s | l
    · rw [hu] at hval
      simp at hval
    · rw [hu] at hval
      simp only [Bool.and_eq_true] at hval
      exact ⟨s, rfl, hval.2⟩
    · rw [hu] at hval
      simp at hval
  · intro hop hu
    unfold searchPermissionsValid
    rw [if_pos hop, hu]
    simp
  · intro hop hu hb hp
    unfold searchPermissionsValid
    rw [if_neg hop, hu, hb, hp]
    rfl

/-- Witness for C6: `objectPerms=true` with no userId is rejected. -/
theorem c6_witness :
    searchPermissionsValid
      (SearchPermissionsQuery.mk QueryParam.none (Option.some true) QueryParam.none
        QueryParam.none) = false :=
  (c6_searchPermissions_userId
    (SearchPermissionsQuery.mk QueryParam.none (Option.some true) QueryParam.none
      QueryParam.none)).2.1 rfl rfl

/-- Claim C7 (amended): with tags, `upload` issues exactly two commands —
put-object first, then a separate put-object-tagging carrying the tags as a
structured TagSet; without tags exactly one put-object command and no
tagging command; the `k1=v1&k2=v2` URL-encoding appears only in `putObject`'s
inline Tagging parameter. -/
theorem c7_upload_two_commands (key mimeType : String)
    (metadata : List (String × String)) (tags : List (String × String)) :
    upload key mimeType metadata (Option.some tags) =
      [S3Command.putObject (PutObjectInput.mk mimeType key metadata Option.none),
       S3Command.putObjectTagging key (TagPayload.tagSet tags)] ∧
    upload key mimeType metadata Option.none =
      [S3Command.putObject (PutObjectInput.mk mimeType key metadata Option.none)] ∧
    putObject key mimeType metadata (Option.some tags) =
      [S3Command.putObject (PutObjectInput.mk mimeType key metadata
        (Option.some (TagPayload.urlEncoded (urlEncodeTags tags))))] :=
  ⟨rfl, rfl, rfl⟩

/-- Counterexample to claim C7 as stated: for `upload` with one tag the
second, separate tagging command carries a structured TagSet, not the
URL-encoded `foo=bar` string the claim describes. -/
theorem c7_counterexample :
    (upload "k" "m" [] (Option.some [("foo", "bar")])).get? 1 =
      Option.some (S3Command.putObjectTagging "k" (TagPayload.tagSet [("foo", "bar")])) ∧
    S3Command.putObjectTagging "k" (TagPayload.tagSet [("foo", "bar")]) ≠
      S3Command.putObjectTagging "k"
        (TagPayload.urlEncoded (urlEncodeTags [("foo", "bar")])) := by
  constructor
  · rfl
  · decide

/-- Claim C8 (confirmed): `createUser` with an unseen idp creates exactly
one IdentityProvider row, before inserting the user; with an existing idp no
row is created; without idp no IdentityProvider call happens at all — the
user row is inserted in every case. -/
theorem c8_createUser_idp (u : UserAttrs) (db : UserDB) :
    (∀ p, u.idp = Option.some p → ¬ db.idps.contains p = true →
      (createUser u db).2.2 =
        [UserCall.readIdp p, UserCall.createIdp p, UserCall.insertUser] ∧
      (createUser u db).1.idps = db.idps ++ [p]) ∧
    (∀ p, u.idp = Option.some p → db.idps.contains p = true →
      (createUser u db).2.2 = [UserCall.readIdp p, UserCall.insertUser] ∧
      (createUser u db).1.idps = db.idps) ∧
    (u.idp = Option.none →
      (createUser u db).2.2 = [UserCall.insertUser] ∧
      (createUser u db).1.idps = db.idps) ∧
    (createUser u db).1.users = db.users ++ [(db.nextUserId, u)] := by
  cases hidp : u.idp with
  | none =>
    refine ⟨?_, ?_, ?_, ?_⟩
    · intro p hp _
      exact absurd hp (by simp)
    · intro p hp _
      exact absurd hp (by simp)
    · intro _
      constructor <;> simp [createUser, hidp]
    · simp [createUser, hidp]
  | some p =>
    by_cases hc : db.idps.contains p = true
    · refine ⟨?_, ?_, ?_, ?_⟩
      · intro p2 hp hnc
        injection hp with hp
        subst hp
        exact absurd hc hnc
      · intro p2 hp _
        injection hp with hp
        subst hp
        have hm : p ∈ db.idps := by simpa using hc
        constructor <;> simp [createUser, hidp, hm]
      · intro hE
        exact absurd hE (by simp)
      · have hm : p ∈ db.idps := by simpa using hc
        simp [createUser, hidp, hm]
    · refine ⟨?_, ?_, ?_, ?_⟩
      · intro p2 hp _
        injection hp with hp
        subst hp
        have hm : p ∉ db.idps := by simpa using hc
        constructor <;> simp [createUser, hidp, hm]
      · intro p2 hp hcc
        injection hp with hp
        subst hp
        exact absurd hcc hc
      · intro hE
        exact absurd hE (by simp)
      · have hm : p ∉ db.idps := by simpa using hc
        simp [createUser, hidp, hm]

/-- Witness for C8: an unseen idp code is created exactly once, before the
user insert. -/
theorem c8_witness :
    (createUser (UserAttrs.mk "i" "u" "f" "l" "fl" "e" (Option.some "idir"))
        (UserDB.mk [] [] 0)).2.2 =
      [UserCall.readIdp "idir", UserCall.createIdp "idir", UserCall.insertUser] ∧
    (createUser (UserAttrs.mk "i" "u" "f" "l" "fl" "e" (Option.some "idir"))
        (UserDB.mk [] [] 0)).1.idps = [] ++ ["idir"] :=
  (c8_createUser_idp (UserAttrs.mk "i" "u" "f" "l" "fl" "e" (Option.some "idir"))
    (UserDB.mk [] [] 0)).1 "idir" rfl (by decide)

/-- No createUser trace contains an updateUser marker or patch call. -/
theorem createUser_calls_shape (u : UserAttrs) (db : UserDB) :
    ∀ uid, UserCall.updateUserCall uid ∉ (createUser u db).2.2 ∧
      UserCall.patchUser uid ∉ (createUser u db).2.2 := by
  intro uid
  unfold createUser
  split
  · split <;> simp
  · simp

/-- No updateUser trace contains a createUser marker. -/
theorem updateUser_calls_shape (userId : Nat) (data : UserAttrs) (db : UserDB) :
    UserCall.createUserCall ∉ (updateUser userId data db).2 := by
  unfold updateUser
  split
  · simp
  · split <;> simp

/-- Claim C9 (confirmed): `login` looks the user up by identityId — on a
miss it calls createUser and never updateUser, on a hit updateUser and never
createUser; and `updateUser` with mapped fields identical to the stored user
performs no patch call and no write at all. -/
theorem c9_login_routes (t : Token) (db : UserDB) :
    (db.users.find? (fun row => row.2.identityId == (tokenToUser t).identityId) =
        Option.none →
      UserCall.createUserCall ∈ (login t db).2 ∧
      ∀ uid, UserCall.updateUserCall uid ∉ (login t db).2) ∧
    (∀ row, db.users.find? (fun row => row.2.identityId == (tokenToUser t).identityId) =
        Option.some row →
      UserCall.updateUserCall row.1 ∈ (login t db).2 ∧
      UserCall.createUserCall ∉ (login t db).2) ∧
    (∀ userId row, db.users.find? (fun r => r.1 == userId) = Option.some row →
      row.2 = tokenToUser t →
      updateUser userId (tokenToUser t) db = (db, [UserCall.readUser userId])) := by
  refine ⟨?_, ?_, ?_⟩
  · intro hfind
    unfold login
    rw [hfind]
    constructor
    · exact List.mem_cons_self _ _
    · intro uid hmem
      rcases List.mem_cons.mp hmem with h | h
      · simp at h
      · exact absurd h ((createUser_calls_shape (tokenToUser t) db uid).1)
  · intro row hfind
    unfold login
    rw [hfind]
    constructor
    · exact List.mem_cons_self _ _
    · intro hmem
      rcases List.mem_cons.mp hmem with h | h
      · simp at h
      · exact absurd h (updateUser_calls_shape row.1 (tokenToUser t) db)
  · intro userId row hfind heq
    unfold updateUser
    rw [hfind]
    simp [heq]

/-- Witness for C9: login with claims identical to the stored user patches
nothing — updateUser returns the database unchanged with only the read. -/
theorem c9_witness :
    updateUser 0 (tokenToUser (Token.mk "s" "u" "g" "f" "n" "e" (Option.some "idir")))
      (UserDB.mk ["idir"]
        [(0, tokenToUser (Token.mk "s" "u" "g" "f" "n" "e" (Option.some "idir")))] 1) =
      (UserDB.mk ["idir"]
        [(0, tokenToUser (Token.mk "s" "u" "g" "f" "n" "e" (Option.some "idir")))] 1,
       [UserCall.readUser 0]) :=
  (c9_login_routes (Token.mk "s" "u" "g" "f" "n" "e" (Option.some "idir"))
    (UserDB.mk ["idir"]
      [(0, tokenToUser (Token.mk "s" "u" "g" "f" "n" "e" (Option.some "idir")))] 1)).2.2
    0 (0, tokenToUser (Token.mk "s" "u" "g" "f" "n" "e" (Option.some "idir"))) rfl rfl

/-- A throwing callback on any list element makes the whole map throw. -/
theorem mapThrow_error_of_mem {α β : Type} (f : α → Except JsError β) (l : List α) (x : α)
    (hx : x ∈ l) (e : JsError) (hf : f x = Except.error e) :
    ∃ e2, mapThrow f l = Except.error e2 := by
  induction l with
  | nil => cases hx
  | cons y ys ih =>
    unfold mapThrow
    rcases List.mem_cons.mp hx with h | h
    · subst h
      rw [hf]
      exact ⟨e, rfl⟩
    · rcases hfy : f y with e2 | b
      · exact ⟨e2, rfl⟩
      · obtain ⟨e3, h3⟩ := ih h
        rw [h3]
        exact ⟨e3, rfl⟩

/-- Claim C10 (confirmed): whenever the filters of `fetchMetadataForObject`
match an object that has no version with deleteMarker = false, the result
shaping dereferences the first element of that object's empty version list,
so the call throws a TypeError instead of returning the object with an empty
metadata list. -/
theorem c10_fetch_throws_on_marker_only (db : CatalogDB) (params : FetchParams)
    (o : ObjectRow) (hmatch : o ∈ matchedObjects db params)
    (hnone : nonMarkerVersionsFor o.id db.versions = []) :
    fetchMetadataForObject db params = Except.error JsError.typeError := by
  have hlatest : latestNonMarkerVersion db o.id = Option.none := by
    unfold latestNonMarkerVersion
    rw [hnone]
    rfl
  unfold fetchMetadataForObject
  have herr : (fun o2 : ObjectRow =>
      match latestNonMarkerVersion db o2.id with
      | Option.some v =>
        Except.ok (o2.id, metadataForVersion db v.id params.metadata)
      | Option.none =>
        (Except.error JsError.typeError : Except JsError (Nat × List MetadataPair))) o =
      Except.error JsError.typeError := by
    simp [hlatest]
  obtain ⟨e2, h2⟩ := mapThrow_error_of_mem
    (fun o2 : ObjectRow =>
      match latestNonMarkerVersion db o2.id with
      | Option.some v => Except.ok (o2.id, metadataForVersion db v.id params.metadata)
      | Option.none => Except.error JsError.typeError)
    (matchedObjects db params) o hmatch JsError.typeError herr
  cases e2 with
  | typeError => exact h2

/-- Witness for C10: an object whose only version is a delete marker makes
the fetch throw. -/
theorem c10_witness :
    fetchMetadataForObject
      (CatalogDB.mk [ObjectRow.mk 1 1] [VersionRow.mk 1 1 5 true] [] [] [])
      (FetchParams.mk Option.none Option.none Option.none) =
      Except.error JsError.typeError :=
  c10_fetch_throws_on_marker_only
    (CatalogDB.mk [ObjectRow.mk 1 1] [VersionRow.mk 1 1 5 true] [] [] [])
    (FetchParams.mk Option.none Option.none Option.none)
    (ObjectRow.mk 1 1) (by decide) (by decide)

end Coms
